import Mathlib

/-!
Shallow embedding of the alert edge-detection loop and the bounded price
history buffer of `Crypto Price Tracker/crypto.py`, together with proofs of
the spec's testable properties about them.

The embedded fragments are:
* the per-coin history update (crypto.py lines 194-199), as `histUpdate`;
* the per-coin body of the alert loop (crypto.py lines 239-273), as
  `evaluate`; iterating it over a price sequence is `runCycles`.

Prices are modelled as rationals; a price that is unavailable in a cycle is
`Option.none`. A cell of the editable thresholds table is a `Cell`: Python
`None`, a value `float(...)` converts to a number, a float NaN, or a string
`float(...)` rejects (which raises `ValueError` — modelled as `Except.error`).
-/

namespace CryptoTracker

/-- Maximum number of retained history samples: `HISTORY_LEN = 300` in
crypto.py (the spec calls it MAX_HISTORY). -/
def HISTORY_LEN : Nat := 300

/-- A value held in one cell (`lower` or `upper`) of the editable thresholds
table. `Cell.none` is Python `None` (absent bound); `Cell.num q` is a value
on which Python `float(...)` succeeds yielding the number `q` (floats, ints
and numeric strings); `Cell.nan` is a float NaN (every order comparison with
it is false); `Cell.badstr s` is an entry on which `float(s)` raises
`ValueError`. -/
inductive Cell where
  | none : Cell
  | num : ℚ → Cell
  | nan : Cell
  | badstr : String → Cell
deriving DecidableEq

/-- Direction of an alert event: which branch of the alert loop appended it. -/
inductive Direction where
  | below : Direction
  | above : Direction
deriving DecidableEq

/-- One triggered alert. The code appends the pair `(c, msg)` to
`triggered_alerts`; `direction` records which branch built the message. -/
structure AlertEvent where
  coin : String
  msg : String
  direction : Direction
deriving DecidableEq

/-- Per-coin entry of `st.session_state.last_alert_state`: the dict
with boolean values at keys "below" and "above". -/
structure EdgeState where
  below_active : Bool
  above_active : Bool
deriving DecidableEq

/-- One row of the thresholds table: the `lower` and `upper` cells. -/
structure Threshold where
  lower : Cell
  upper : Cell
deriving DecidableEq

/-- Text a cell contributes to the f-string message. -/
def Cell.text : Cell → String
  | Cell.none => "None"
  | Cell.num q => toString q
  | Cell.nan => "nan"
  | Cell.badstr s => s

/-- The Python expression `(lower is not None) and (price <= float(lower))`
(crypto.py line 255): `and` short-circuits on `None`; `float` raises on a
non-numeric string; comparisons with NaN are false. -/
def crossedBelowE (price : ℚ) (lower : Cell) : Except String Bool :=
  match lower with
  | Cell.none => Except.ok false
  | Cell.num q => Except.ok (decide (price ≤ q))
  | Cell.nan => Except.ok false
  | Cell.badstr s => Except.error ("could not convert string to float: " ++ s)

/-- The Python expression `(upper is not None) and (price >= float(upper))`
(crypto.py line 256). -/
def crossedAboveE (price : ℚ) (upper : Cell) : Except String Bool :=
  match upper with
  | Cell.none => Except.ok false
  | Cell.num q => Except.ok (decide (q ≤ price))
  | Cell.nan => Except.ok false
  | Cell.badstr s => Except.error ("could not convert string to float: " ++ s)

/-- Message of a "below" alert: the f-string at crypto.py line 260. -/
def belowMsg (c cur : String) (price : ℚ) (lower : Cell) : String :=
  c ++ " at " ++ toString price ++ " " ++ cur.toUpper ++
    " is <= lower threshold " ++ lower.text

/-- Message of an "above" alert: the f-string at crypto.py line 267. -/
def aboveMsg (c cur : String) (price : ℚ) (upper : Cell) : String :=
  c ++ " at " ++ toString price ++ " " ++ cur.toUpper ++
    " is >= upper threshold " ++ upper.text

/-- One iteration of the alert loop for a single coin (crypto.py lines
239-273): given the coin's current price (`Option.none` when the quote is
missing this cycle), its threshold row (`Option.none` when the coin has no
row), and the previous edge state, return the alerts appended this cycle (in
append order: below first, then above) and the updated edge state. An
`Except.error` models the uncaught `ValueError` from `float(...)`. -/
def evaluate (c cur : String) (price : Option ℚ) (th : Option Threshold)
    (last : EdgeState) : Except String (List AlertEvent × EdgeState) :=
  match price with
  | Option.none => Except.ok ([], last)
  | Option.some p =>
    match th with
    | Option.none => Except.ok ([], last)
    | Option.some t =>
      match crossedBelowE p t.lower with
      | Except.error e => Except.error e
      | Except.ok cb =>
        match crossedAboveE p t.upper with
        | Except.error e => Except.error e
        | Except.ok ca =>
          let rb : List AlertEvent × Bool :=
            if cb && !last.below_active then
              ([⟨c, belowMsg c cur p t.lower, Direction.below⟩], true)
            else if !cb then ([], false)
            else ([], last.below_active)
          let ra : List AlertEvent × Bool :=
            if ca && !last.above_active then
              ([⟨c, aboveMsg c cur p t.upper, Direction.above⟩], true)
            else if !ca then ([], false)
            else ([], last.above_active)
          Except.ok (rb.1 ++ ra.1, ⟨rb.2, ra.2⟩)

/-- History update for one coin (crypto.py lines 194-199): a present price is
appended and, when the length exceeds `HISTORY_LEN`, the buffer is cut to its
last `HISTORY_LEN` samples (`hist[-HISTORY_LEN:]`); a missing price leaves
the buffer untouched. -/
def histUpdate (hist : List ℚ) (price : Option ℚ) : List ℚ :=
  match price with
  | Option.none => hist
  | Option.some p =>
    let h := hist ++ [p]
    if HISTORY_LEN < h.length then h.drop (h.length - HISTORY_LEN) else h

/-- Iterates `evaluate` over successive poll cycles for one coin, collecting
each cycle's alert list; propagates the first raised error. -/
def runCycles (c cur : String) (th : Option Threshold) :
    EdgeState → List (Option ℚ) →
    Except String (List (List AlertEvent) × EdgeState)
  | st, [] => Except.ok ([], st)
  | st, p :: ps =>
    match evaluate c cur p th st with
    | Except.error e => Except.error e
    | Except.ok (evs, st1) =>
      match runCycles c cur th st1 ps with
      | Except.error e => Except.error e
      | Except.ok (rest, stF) => Except.ok (evs :: rest, stF)

/-- Directions of the alerts of each cycle, `Option.none` if a cycle
raised. -/
def cycleDirs (c cur : String) (th : Option Threshold) (st : EdgeState)
    (ps : List (Option ℚ)) : Option (List (List Direction)) :=
  match runCycles c cur th st ps with
  | Except.error _ => Option.none
  | Except.ok (evss, _) =>
    Option.some (evss.map (fun evs => evs.map AlertEvent.direction))

/-- C6: Scenario 1 of the spec. Lower bound 100, no upper bound, prices
105, 100, 95, 101, 99 from a cleared edge state: exactly two events fire,
both "below" — at the second sample (100 <= 100) and at the fifth (price 99,
the latch having been reset by 101 at the fourth sample); none at 105, 95,
or 101. -/
theorem C6_scenario1 :
    cycleDirs "bitcoin" "usd" (Option.some ⟨Cell.num 100, Cell.none⟩)
        ⟨false, false⟩ ([105, 100, 95, 101, 99].map Option.some) =
      Option.some [[], [Direction.below], [], [], [Direction.below]] := by
  rfl

/-- C7: Scenario 4 of the spec. Misconfigured threshold lower = 50,
upper = 40 and price 45 from a cleared edge state: both crossing conditions
hold (45 <= 50 and 45 >= 40) and evaluation succeeds with exactly two events
in the same cycle, the "below" one appended before the "above" one, both
latches set. -/
theorem C7_scenario4 :
    crossedBelowE 45 (Cell.num 50) = Except.ok true ∧
    crossedAboveE 45 (Cell.num 40) = Except.ok true ∧
    evaluate "bitcoin" "usd" (Option.some 45)
        (Option.some ⟨Cell.num 50, Cell.num 40⟩) ⟨false, false⟩ =
      Except.ok
        ([⟨"bitcoin", belowMsg "bitcoin" "usd" 45 (Cell.num 50),
            Direction.below⟩,
          ⟨"bitcoin", aboveMsg "bitcoin" "usd" 45 (Cell.num 40),
            Direction.above⟩],
          ⟨true, true⟩) := by
  refine ⟨rfl, rfl, rfl⟩

/-- C9: appending an absent price to a history buffer is a no-op — neither
the length nor the contents change. -/
theorem C9_absent_price_noop (hist : List ℚ) :
    histUpdate hist Option.none = hist ∧
    (histUpdate hist Option.none).length = hist.length := by
  exact ⟨rfl, rfl⟩

/-- C3: a cycle with an absent quote emits no events, leaves the edge state
unchanged, leaves the history buffer unchanged, and a run starting with such
a cycle continues exactly as the run without it (same later events, same
final state) — no false re-trigger. -/
theorem C3_absent_price_frame (c cur : String) (th : Option Threshold)
    (st : EdgeState) (hist : List ℚ) (ps : List (Option ℚ)) :
    evaluate c cur Option.none th st = Except.ok ([], st) ∧
    histUpdate hist Option.none = hist ∧
    runCycles c cur th st (Option.none :: ps) =
      (match runCycles c cur th st ps with
       | Except.error e => Except.error e
       | Except.ok (evss, stF) => Except.ok ([] :: evss, stF)) := by
  exact ⟨rfl, rfl, rfl⟩

/-- When both crossing computations succeed, one evaluation step emits the
"below" event exactly when `crossed_below` holds with a clear below-latch,
then the "above" event exactly when `crossed_above` holds with a clear
above-latch, and the new edge state records the two crossing booleans. -/
theorem evaluate_some_some (c cur : String) (p : ℚ) (t : Threshold)
    (st : EdgeState) (cb ca : Bool)
    (hcb : crossedBelowE p t.lower = Except.ok cb)
    (hca : crossedAboveE p t.upper = Except.ok ca) :
    evaluate c cur (Option.some p) (Option.some t) st =
      Except.ok
        ((if cb && !st.below_active
            then [⟨c, belowMsg c cur p t.lower, Direction.below⟩] else []) ++
          (if ca && !st.above_active
            then [⟨c, aboveMsg c cur p t.upper, Direction.above⟩] else []),
          ⟨cb, ca⟩) := by
  obtain ⟨b, a⟩ := st
  simp only [evaluate, hcb, hca]
  cases cb <;> cases ca <;> cases b <;> cases a <;> simp

/-- When the lower cell raises in `float`, the whole evaluation raises. -/
theorem evaluate_lower_error (c cur : String) (p : ℚ) (t : Threshold)
    (st : EdgeState) (e : String)
    (hcb : crossedBelowE p t.lower = Except.error e) :
    evaluate c cur (Option.some p) (Option.some t) st = Except.error e := by
  simp only [evaluate, hcb]

/-- When the lower cell converts but the upper cell raises in `float`, the
whole evaluation raises. -/
theorem evaluate_upper_error (c cur : String) (p : ℚ) (t : Threshold)
    (st : EdgeState) (cb : Bool) (e : String)
    (hcb : crossedBelowE p t.lower = Except.ok cb)
    (hca : crossedAboveE p t.upper = Except.error e) :
    evaluate c cur (Option.some p) (Option.some t) st = Except.error e := by
  simp only [evaluate, hcb, hca]

/-- C2: after any successful evaluation with a present price and a present
threshold row, the below-latch is set exactly when the just-observed price
lay at or under a numeric lower bound, and the above-latch exactly when it
lay at or over a numeric upper bound. -/
theorem C2_edge_state_invariant (c cur : String) (p : ℚ) (t : Threshold)
    (st : EdgeState) (evs : List AlertEvent) (st1 : EdgeState)
    (h : evaluate c cur (Option.some p) (Option.some t) st =
      Except.ok (evs, st1)) :
    (st1.below_active = true ↔ ∃ q, t.lower = Cell.num q ∧ p ≤ q) ∧
    (st1.above_active = true ↔ ∃ q, t.upper = Cell.num q ∧ q ≤ p) := by
  rcases hcb : crossedBelowE p t.lower with e | cb
  · rw [evaluate_lower_error c cur p t st e hcb] at h
    exact absurd h (by simp)
  rcases hca : crossedAboveE p t.upper with e | ca
  · rw [evaluate_upper_error c cur p t st cb e hcb hca] at h
    exact absurd h (by simp)
  rw [evaluate_some_some c cur p t st cb ca hcb hca] at h
  have hst : st1 = ⟨cb, ca⟩ := by
    have := (Except.ok.injEq _ _).mp h
    exact (Prod.mk.injEq _ _ _ _).mp this |>.2.symm
  subst hst
  constructor
  · cases hl : t.lower <;> rw [hl] at hcb <;>
      first
        | exact Except.noConfusion hcb
        | · simp only [crossedBelowE, Except.ok.injEq] at hcb
            simp [← hcb, decide_eq_true_iff]
  · cases hu : t.upper <;> rw [hu] at hca <;>
      first
        | exact Except.noConfusion hca
        | · simp only [crossedAboveE, Except.ok.injEq] at hca
            simp [← hca, decide_eq_true_iff]

/-- C10: a single successful evaluation of one coin in one cycle emits at
most one "below" and at most one "above" event — so at most two in all —
and when both fire, the "below" event precedes the "above" event in the
emitted list. -/
theorem C10_per_cycle_event_bound (c cur : String) (pr : Option ℚ)
    (th : Option Threshold) (st : EdgeState)
    (evs : List AlertEvent) (st1 : EdgeState)
    (h : evaluate c cur pr th st = Except.ok (evs, st1)) :
    evs.map AlertEvent.direction = [] ∨
    evs.map AlertEvent.direction = [Direction.below] ∨
    evs.map AlertEvent.direction = [Direction.above] ∨
    evs.map AlertEvent.direction = [Direction.below, Direction.above] := by
  rcases pr with _ | p
  · have : evs = [] := by
      simp only [evaluate, Except.ok.injEq] at h
      exact ((Prod.mk.injEq _ _ _ _).mp h).1.symm
    simp [this]
  rcases th with _ | t
  · have : evs = [] := by
      simp only [evaluate, Except.ok.injEq] at h
      exact ((Prod.mk.injEq _ _ _ _).mp h).1.symm
    simp [this]
  rcases hcb : crossedBelowE p t.lower with e | cb
  · rw [evaluate_lower_error c cur p t st e hcb] at h
    exact absurd h (by simp)
  rcases hca : crossedAboveE p t.upper with e | ca
  · rw [evaluate_upper_error c cur p t st cb e hcb hca] at h
    exact absurd h (by simp)
  rw [evaluate_some_some c cur p t st cb ca hcb hca] at h
  have hevs := ((Prod.mk.injEq _ _ _ _).mp ((Except.ok.injEq _ _).mp h)).1
  by_cases h1 : (cb && !st.below_active) = true <;>
    by_cases h2 : (ca && !st.above_active) = true <;>
      simp [h1, h2] at hevs <;> simp [← hevs]

/-- One evaluation step of a coin whose threshold row has both cells absent:
no event, both latches cleared. -/
theorem evaluate_noBounds (c cur : String) (p : ℚ) (st : EdgeState) :
    evaluate c cur (Option.some p) (Option.some ⟨Cell.none, Cell.none⟩) st =
      Except.ok ([], ⟨false, false⟩) := by
  obtain ⟨b, a⟩ := st
  rfl

/-- Running any price sequence against a threshold row with both cells
absent produces an empty alert list in every cycle. -/
theorem runCycles_noBounds (c cur : String) :
    ∀ (ps : List (Option ℚ)) (st : EdgeState),
      ∃ stF, runCycles c cur (Option.some ⟨Cell.none, Cell.none⟩) st ps =
        Except.ok (List.replicate ps.length [], stF)
  | [], st => ⟨st, rfl⟩
  | Option.none :: ps, st => by
    obtain ⟨stF, h⟩ := runCycles_noBounds c cur ps st
    exact ⟨stF, by simp [runCycles, evaluate, h, List.replicate_succ]⟩
  | Option.some q :: ps, st => by
    obtain ⟨stF, h⟩ := runCycles_noBounds c cur ps ⟨false, false⟩
    refine ⟨stF, ?_⟩
    simp only [runCycles, evaluate_noBounds, h, List.length_cons,
      List.replicate_succ]

/-- C8: an asset whose threshold row has both `lower` and `upper` absent
never produces an alert: over any sequence of present or absent prices and
from any starting edge state, every cycle's event list is empty. -/
theorem C8_no_bounds_quiescent (c cur : String) (st : EdgeState)
    (ps : List (Option ℚ)) :
    cycleDirs c cur (Option.some ⟨Cell.none, Cell.none⟩) st ps =
      Option.some (List.replicate ps.length []) := by
  obtain ⟨stF, h⟩ := runCycles_noBounds c cur ps st
  simp [cycleDirs, h, List.map_replicate]

/-- C4 counterexample: a non-numeric string entered in the `lower` cell of
the editable table is not treated as "no bound": the evaluation of the asset
raises `ValueError` at `float(lower)` (crypto.py line 255) instead of
completing. -/
theorem C4_counterexample :
    evaluate "bitcoin" "usd" (Option.some 45)
        (Option.some ⟨Cell.badstr "abc", Cell.none⟩) ⟨false, false⟩ =
      Except.error "could not convert string to float: abc" := by
  rfl

/-- C4 amended: an absent (`None`) or NaN threshold value is treated as "no
bound" — evaluation completes without error and such a bound never triggers
an event — but a present entry that `float` cannot parse makes the asset's
evaluation raise instead of being treated as "no bound". -/
theorem C4_amended_no_bound (c cur : String) (p : ℚ) (st : EdgeState)
    (lc uc : Cell) (s : String)
    (hl : lc = Cell.none ∨ lc = Cell.nan)
    (hu : uc = Cell.none ∨ uc = Cell.nan) :
    evaluate c cur (Option.some p) (Option.some ⟨lc, uc⟩) st =
      Except.ok ([], ⟨false, false⟩) ∧
    evaluate c cur (Option.some p) (Option.some ⟨Cell.badstr s, uc⟩) st =
      Except.error ("could not convert string to float: " ++ s) := by
  constructor
  · have hcb : crossedBelowE p lc = Except.ok false := by
      rcases hl with h | h <;> subst h <;> rfl
    have hca : crossedAboveE p uc = Except.ok false := by
      rcases hu with h | h <;> subst h <;> rfl
    have := evaluate_some_some c cur p ⟨lc, uc⟩ st false false hcb hca
    simpa using this
  · exact evaluate_lower_error c cur p ⟨Cell.badstr s, uc⟩ st _ rfl

/-- The history update on a present price keeps exactly the last
`HISTORY_LEN` samples of the extended buffer. -/
theorem histUpdate_some (m : List ℚ) (p : ℚ) :
    histUpdate m (Option.some p) = (m ++ [p]).rtake HISTORY_LEN := by
  simp only [histUpdate, List.rtake]
  split
  · rfl
  · next h => rw [Nat.sub_eq_zero_of_le (by omega), List.drop_zero]

/-- Truncating the left part of an append to its last `n` elements does not
change the last `n` elements of the whole append. -/
theorem take_append_take {α : Type} (n : Nat) (a b : List α) :
    List.take n (a ++ List.take n b) = List.take n (a ++ b) := by
  rw [List.take_append_eq_append_take, List.take_append_eq_append_take,
    List.take_take, Nat.min_eq_left (Nat.sub_le n a.length)]

/-- Keeping the last `n` elements commutes with prior truncation to the last
`n` elements. -/
theorem rtake_append_rtake {α : Type} (n : Nat) (a b : List α) :
    ((a.rtake n) ++ b).rtake n = (a ++ b).rtake n := by
  simp only [List.rtake_eq_reverse_take_reverse, List.reverse_append,
    List.reverse_reverse]
  rw [take_append_take]

/-- Folding the history update over a cycle's worth of optional prices, from
any buffer within capacity, yields the last `HISTORY_LEN` samples of the
buffer extended by the present prices in order. -/
theorem foldl_histUpdate_rtake :
    ∀ (ps : List (Option ℚ)) (acc : List ℚ), acc.length ≤ HISTORY_LEN →
      ps.foldl histUpdate acc = (acc ++ ps.filterMap id).rtake HISTORY_LEN
  | [], acc, h => by
    simp [List.rtake, Nat.sub_eq_zero_of_le h]
  | Option.none :: ps, acc, h => by
    simp only [List.foldl_cons, List.filterMap_cons]
    have hnone : histUpdate acc Option.none = acc := rfl
    rw [hnone, foldl_histUpdate_rtake ps acc h]
    rfl
  | Option.some p :: ps, acc, h => by
    have hlen : ((acc ++ [p]).rtake HISTORY_LEN).length ≤ HISTORY_LEN := by
      simp only [List.rtake, List.length_drop]
      omega
    simp only [List.foldl_cons, List.filterMap_cons, histUpdate_some]
    rw [foldl_histUpdate_rtake ps _ hlen, rtake_append_rtake]
    simp

/-- Present prices survive the quote wrapping unchanged. -/
theorem filterMap_id_map_some (qs : List ℚ) :
    (qs.map Option.some).filterMap id = qs := by
  induction qs with
  | nil => rfl
  | cons q qs ih => simp [ih]

/-- C5: starting from an empty buffer, after any sequence of appends the
buffer length never exceeds `HISTORY_LEN`, the buffer is exactly the last
`HISTORY_LEN` of the present prices in original relative order (no
reordering, no deduplication), and after more than `HISTORY_LEN` present
prices it holds exactly the last `HISTORY_LEN` of them, filling the
window. -/
theorem C5_history_window (ps : List (Option ℚ)) (qs : List ℚ)
    (h : HISTORY_LEN < qs.length) :
    (ps.foldl histUpdate []).length ≤ HISTORY_LEN ∧
    ps.foldl histUpdate [] = (ps.filterMap id).rtake HISTORY_LEN ∧
    (qs.map Option.some).foldl histUpdate [] = qs.rtake HISTORY_LEN ∧
    (qs.rtake HISTORY_LEN).length = HISTORY_LEN := by
  have hmain := foldl_histUpdate_rtake ps [] (by simp)
  have hq := foldl_histUpdate_rtake (qs.map Option.some) [] (by simp)
  rw [filterMap_id_map_some] at hq
  refine ⟨?_, by simpa using hmain, by simpa using hq, ?_⟩
  · rw [hmain]
    simp only [List.rtake, List.length_drop]
    omega
  · simp only [List.rtake, List.length_drop]
    omega

/-- Running a concatenated price sequence runs the first part, then the
second from the state the first part reached. -/
theorem runCycles_append (c cur : String) (th : Option Threshold) :
    ∀ (xs ys : List (Option ℚ)) (st : EdgeState),
      runCycles c cur th st (xs ++ ys) =
        match runCycles c cur th st xs with
        | Except.error e => Except.error e
        | Except.ok (evss, st1) =>
          match runCycles c cur th st1 ys with
          | Except.error e => Except.error e
          | Except.ok (evss2, st2) => Except.ok (evss ++ evss2, st2)
  | [], ys, st => by
    cases hys : runCycles c cur th st ys with
    | error e => simp [runCycles, hys]
    | ok r => simp [runCycles, hys]
  | x :: xs, ys, st => by
    simp only [List.cons_append, runCycles, List.append_eq]
    cases hev : evaluate c cur x th st with
    | error e => rfl
    | ok r =>
      obtain ⟨evs, st1⟩ := r
      dsimp only
      rw [runCycles_append c cur th xs ys st1]
      cases hxs : runCycles c cur th st1 xs with
      | error e => rfl
      | ok r2 =>
        obtain ⟨evss, st2⟩ := r2
        dsimp only
        cases hys : runCycles c cur th st2 ys with
        | error e => rfl
        | ok r3 =>
          obtain ⟨evss2, st3⟩ := r3
          dsimp only
          simp

/-- Unfolding equation of `runCycles` for a nonempty price sequence. -/
theorem runCycles_cons (c cur : String) (th : Option Threshold)
    (st : EdgeState) (p : Option ℚ) (ps : List (Option ℚ)) :
    runCycles c cur th st (p :: ps) =
      match evaluate c cur p th st with
      | Except.error e => Except.error e
      | Except.ok (evs, st1) =>
        match runCycles c cur th st1 ps with
        | Except.error e => Except.error e
        | Except.ok (rest, stF) => Except.ok (evs :: rest, stF) := rfl

/-- Composition of two successful runs into a successful run of the
concatenated price sequence. -/
theorem runCycles_append_ok (c cur : String) (th : Option Threshold)
    {xs ys : List (Option ℚ)} {st st1 st2 : EdgeState}
    {E1 E2 : List (List AlertEvent)}
    (h1 : runCycles c cur th st xs = Except.ok (E1, st1))
    (h2 : runCycles c cur th st1 ys = Except.ok (E2, st2)) :
    runCycles c cur th st (xs ++ ys) = Except.ok (E1 ++ E2, st2) := by
  rw [runCycles_append c cur th xs ys st, h1]
  simp [h2]

/-- One evaluation step against a threshold row with only a numeric lower
bound: an event fires exactly when the price is at or under the bound with a
clear latch; the new latch records the crossing and the above-latch is
cleared. -/
theorem evaluate_lowOnly (c cur : String) (l p : ℚ) (b a : Bool) :
    evaluate c cur (Option.some p) (Option.some ⟨Cell.num l, Cell.none⟩)
        ⟨b, a⟩ =
      Except.ok
        ((if decide (p ≤ l) && !b
            then [⟨c, belowMsg c cur p (Cell.num l), Direction.below⟩]
            else []),
          ⟨decide (p ≤ l), false⟩) := by
  have := evaluate_some_some c cur p ⟨Cell.num l, Cell.none⟩ ⟨b, a⟩
    (decide (p ≤ l)) false rfl rfl
  simpa using this

/-- One evaluation step against a threshold row with only a numeric upper
bound, symmetric to `evaluate_lowOnly`. -/
theorem evaluate_upOnly (c cur : String) (u p : ℚ) (b a : Bool) :
    evaluate c cur (Option.some p) (Option.some ⟨Cell.none, Cell.num u⟩)
        ⟨b, a⟩ =
      Except.ok
        ((if decide (u ≤ p) && !a
            then [⟨c, aboveMsg c cur p (Cell.num u), Direction.above⟩]
            else []),
          ⟨false, decide (u ≤ p)⟩) := by
  have := evaluate_some_some c cur p ⟨Cell.none, Cell.num u⟩ ⟨b, a⟩
    false (decide (u ≤ p)) rfl rfl
  simpa using this

/-- While the below-latch is set and prices stay at or under the lower
bound, no cycle emits any event and the latch stays set. -/
theorem runLow_latched (c cur : String) (l : ℚ) :
    ∀ (xs : List ℚ) (a : Bool), (∀ x ∈ xs, x ≤ l) →
      ∃ stF, runCycles c cur (Option.some ⟨Cell.num l, Cell.none⟩) ⟨true, a⟩
          (xs.map Option.some) =
        Except.ok (List.replicate xs.length [], stF) ∧
        stF.below_active = true
  | [], a, _ => ⟨⟨true, a⟩, rfl, rfl⟩
  | x :: xs, a, h => by
    have hx : decide (x ≤ l) = true :=
      decide_eq_true (h x (List.mem_cons_self x xs))
    obtain ⟨stF, hrun, hb⟩ :=
      runLow_latched c cur l xs false (fun y hy => h y (List.mem_cons_of_mem x hy))
    refine ⟨stF, ?_, hb⟩
    simp only [List.map_cons, runCycles, evaluate_lowOnly, hx]
    simp [hrun, List.replicate_succ]

/-- From a clear below-latch, a nonempty run of prices at or under the lower
bound emits exactly one "below" event, on its first cycle, and leaves the
latch set. -/
theorem runLow_fresh (c cur : String) (l x : ℚ) (xs : List ℚ) (a : Bool)
    (hx : x ≤ l) (hxs : ∀ y ∈ xs, y ≤ l) :
    ∃ stF, runCycles c cur (Option.some ⟨Cell.num l, Cell.none⟩) ⟨false, a⟩
        ((x :: xs).map Option.some) =
      Except.ok
        ([⟨c, belowMsg c cur x (Cell.num l), Direction.below⟩] ::
          List.replicate xs.length [], stF) ∧
      stF.below_active = true := by
  have hd : decide (x ≤ l) = true := decide_eq_true hx
  obtain ⟨stF, hrun, hb⟩ := runLow_latched c cur l xs false hxs
  refine ⟨stF, ?_, hb⟩
  simp only [List.map_cons, runCycles, evaluate_lowOnly, hd]
  simp [hrun]

/-- While the above-latch is set and prices stay at or over the upper bound,
no cycle emits any event and the latch stays set. -/
theorem runUp_latched (c cur : String) (u : ℚ) :
    ∀ (zs : List ℚ) (b : Bool), (∀ z ∈ zs, u ≤ z) →
      ∃ stF, runCycles c cur (Option.some ⟨Cell.none, Cell.num u⟩) ⟨b, true⟩
          (zs.map Option.some) =
        Except.ok (List.replicate zs.length [], stF) ∧
        stF.above_active = true
  | [], b, _ => ⟨⟨b, true⟩, rfl, rfl⟩
  | z :: zs, b, h => by
    have hz : decide (u ≤ z) = true :=
      decide_eq_true (h z (List.mem_cons_self z zs))
    obtain ⟨stF, hrun, ha⟩ :=
      runUp_latched c cur u zs false (fun y hy => h y (List.mem_cons_of_mem z hy))
    refine ⟨stF, ?_, ha⟩
    simp only [List.map_cons, runCycles, evaluate_upOnly, hz]
    simp [hrun, List.replicate_succ]

/-- From a clear above-latch, a nonempty run of prices at or over the upper
bound emits exactly one "above" event, on its first cycle, and leaves the
latch set. -/
theorem runUp_fresh (c cur : String) (u z : ℚ) (zs : List ℚ) (b : Bool)
    (hz : u ≤ z) (hzs : ∀ y ∈ zs, u ≤ y) :
    ∃ stF, runCycles c cur (Option.some ⟨Cell.none, Cell.num u⟩) ⟨b, false⟩
        ((z :: zs).map Option.some) =
      Except.ok
        ([⟨c, aboveMsg c cur z (Cell.num u), Direction.above⟩] ::
          List.replicate zs.length [], stF) ∧
      stF.above_active = true := by
  have hd : decide (u ≤ z) = true := decide_eq_true hz
  obtain ⟨stF, hrun, ha⟩ := runUp_latched c cur u zs false hzs
  refine ⟨stF, ?_, ha⟩
  simp only [List.map_cons, runCycles, evaluate_upOnly, hd]
  simp [hrun]

/-- Full below-side trace: a run at or under the lower bound, a clearing
cycle over it, then another run at or under it, emits exactly one "below"
event at the head of each run and nothing else. -/
theorem cycleDirs_low (c cur : String) (l : ℚ) (a : Bool) (x1 : ℚ)
    (xs1 : List ℚ) (y x2 : ℚ) (xs2 : List ℚ)
    (hx1 : x1 ≤ l) (hxs1 : ∀ z ∈ xs1, z ≤ l) (hy : l < y)
    (hx2 : x2 ≤ l) (hxs2 : ∀ z ∈ xs2, z ≤ l) :
    cycleDirs c cur (Option.some ⟨Cell.num l, Cell.none⟩) ⟨false, a⟩
        (((x1 :: xs1) ++ y :: x2 :: xs2).map Option.some) =
      Option.some (([Direction.below] :: List.replicate xs1.length []) ++
        [] :: [Direction.below] :: List.replicate xs2.length []) := by
  have hyd : decide (y ≤ l) = false := decide_eq_false (not_le.mpr hy)
  obtain ⟨st1, hrun1, hb1⟩ := runLow_fresh c cur l x1 xs1 a hx1 hxs1
  obtain ⟨b1, a1⟩ := st1
  have hb1' : b1 = true := hb1
  subst hb1'
  obtain ⟨st2, hrun2, hb2⟩ := runLow_fresh c cur l x2 xs2 false hx2 hxs2
  have hB : runCycles c cur (Option.some ⟨Cell.num l, Cell.none⟩) ⟨true, a1⟩
      ((y :: x2 :: xs2).map Option.some) =
      Except.ok ([] ::
        ([⟨c, belowMsg c cur x2 (Cell.num l), Direction.below⟩] ::
          List.replicate xs2.length []), st2) := by
    rw [List.map_cons, runCycles_cons, evaluate_lowOnly c cur l y true a1]
    simp only [List.map_cons] at hrun2
    simp [hyd, hrun2]
  have happ := runCycles_append_ok c cur
    (Option.some ⟨Cell.num l, Cell.none⟩) hrun1 hB
  simp only [cycleDirs, List.map_append, happ]
  simp [List.map_replicate]

/-- Full above-side trace: a run at or over the upper bound, a clearing
cycle under it, then another run at or over it, emits exactly one "above"
event at the head of each run and nothing else. -/
theorem cycleDirs_up (c cur : String) (u : ℚ) (b : Bool) (z1 : ℚ)
    (zs1 : List ℚ) (w z2 : ℚ) (zs2 : List ℚ)
    (hz1 : u ≤ z1) (hzs1 : ∀ z ∈ zs1, u ≤ z) (hw : w < u)
    (hz2 : u ≤ z2) (hzs2 : ∀ z ∈ zs2, u ≤ z) :
    cycleDirs c cur (Option.some ⟨Cell.none, Cell.num u⟩) ⟨b, false⟩
        (((z1 :: zs1) ++ w :: z2 :: zs2).map Option.some) =
      Option.some (([Direction.above] :: List.replicate zs1.length []) ++
        [] :: [Direction.above] :: List.replicate zs2.length []) := by
  have hwd : decide (u ≤ w) = false := decide_eq_false (not_le.mpr hw)
  obtain ⟨st1, hrun1, ha1⟩ := runUp_fresh c cur u z1 zs1 b hz1 hzs1
  obtain ⟨b1, a1⟩ := st1
  have ha1' : a1 = true := ha1
  subst ha1'
  obtain ⟨st2, hrun2, ha2⟩ := runUp_fresh c cur u z2 zs2 false hz2 hzs2
  have hB : runCycles c cur (Option.some ⟨Cell.none, Cell.num u⟩) ⟨b1, true⟩
      ((w :: z2 :: zs2).map Option.some) =
      Except.ok ([] ::
        ([⟨c, aboveMsg c cur z2 (Cell.num u), Direction.above⟩] ::
          List.replicate zs2.length []), st2) := by
    rw [List.map_cons, runCycles_cons, evaluate_upOnly c cur u w b1 true]
    simp only [List.map_cons] at hrun2
    simp [hwd, hrun2]
  have happ := runCycles_append_ok c cur
    (Option.some ⟨Cell.none, Cell.num u⟩) hrun1 hB
  simp only [cycleDirs, List.map_append, happ]
  simp [List.map_replicate]

/-- C1: edge-triggered alerting. With a numeric lower bound and no upper
bound, a run of present prices at or under the bound, a cycle over it, and
another run at or under it fire exactly one "below" event per run, each on
the run's first cycle and none after, the clearing cycle firing nothing; the
symmetric statement holds for a numeric upper bound and "above" events, a
cycle under the upper bound clearing that latch. -/
theorem C1_edge_triggered (c cur : String) (l u : ℚ) (a b : Bool)
    (x1 : ℚ) (xs1 : List ℚ) (y x2 : ℚ) (xs2 : List ℚ)
    (z1 : ℚ) (zs1 : List ℚ) (w z2 : ℚ) (zs2 : List ℚ)
    (hx1 : x1 ≤ l) (hxs1 : ∀ z ∈ xs1, z ≤ l) (hy : l < y)
    (hx2 : x2 ≤ l) (hxs2 : ∀ z ∈ xs2, z ≤ l)
    (hz1 : u ≤ z1) (hzs1 : ∀ z ∈ zs1, u ≤ z) (hw : w < u)
    (hz2 : u ≤ z2) (hzs2 : ∀ z ∈ zs2, u ≤ z) :
    cycleDirs c cur (Option.some ⟨Cell.num l, Cell.none⟩) ⟨false, a⟩
        (((x1 :: xs1) ++ y :: x2 :: xs2).map Option.some) =
      Option.some (([Direction.below] :: List.replicate xs1.length []) ++
        [] :: [Direction.below] :: List.replicate xs2.length []) ∧
    cycleDirs c cur (Option.some ⟨Cell.none, Cell.num u⟩) ⟨b, false⟩
        (((z1 :: zs1) ++ w :: z2 :: zs2).map Option.some) =
      Option.some (([Direction.above] :: List.replicate zs1.length []) ++
        [] :: [Direction.above] :: List.replicate zs2.length []) :=
  ⟨cycleDirs_low c cur l a x1 xs1 y x2 xs2 hx1 hxs1 hy hx2 hxs2,
   cycleDirs_up c cur u b z1 zs1 w z2 zs2 hz1 hzs1 hw hz2 hzs2⟩

/-- Witness for C1 at lower bound 100 over prices 100, 95, 101, 99 and upper
bound 10 over prices 10, 9, 11, 12. -/
theorem C1_edge_triggered_witness :
    cycleDirs "bitcoin" "usd" (Option.some ⟨Cell.num 100, Cell.none⟩)
        ⟨false, false⟩ (([100, 95, 101, 99] : List ℚ).map Option.some) =
      Option.some [[Direction.below], [], [], [Direction.below]] ∧
    cycleDirs "bitcoin" "usd" (Option.some ⟨Cell.none, Cell.num 10⟩)
        ⟨false, false⟩ (([10, 9, 11, 12] : List ℚ).map Option.some) =
      Option.some [[Direction.above], [], [Direction.above], []] :=
  C1_edge_triggered "bitcoin" "usd" 100 10 false false
    100 [95] 101 99 [] 10 [] 9 11 [12]
    (by norm_num) (by norm_num) (by norm_num) (by norm_num) (by norm_num)
    (by norm_num) (by norm_num) (by norm_num) (by norm_num) (by norm_num)

/-- Witness for C2 at price 5 against lower bound 10 and no upper bound. -/
theorem C2_edge_state_invariant_witness :
    ((EdgeState.mk true false).below_active = true ↔
      ∃ q, (Threshold.mk (Cell.num 10) Cell.none).lower = Cell.num q ∧
        (5 : ℚ) ≤ q) ∧
    ((EdgeState.mk true false).above_active = true ↔
      ∃ q, (Threshold.mk (Cell.num 10) Cell.none).upper = Cell.num q ∧
        q ≤ (5 : ℚ)) :=
  C2_edge_state_invariant "bitcoin" "usd" 5 ⟨Cell.num 10, Cell.none⟩
    ⟨false, false⟩
    [⟨"bitcoin", belowMsg "bitcoin" "usd" 5 (Cell.num 10), Direction.below⟩]
    ⟨true, false⟩ rfl

/-- Witness for C10 on the misconfigured two-event evaluation. -/
theorem C10_per_cycle_event_bound_witness :
    ([(⟨"eth", belowMsg "eth" "usd" 45 (Cell.num 50), Direction.below⟩ :
        AlertEvent),
      ⟨"eth", aboveMsg "eth" "usd" 45 (Cell.num 40), Direction.above⟩].map
        AlertEvent.direction = [] ∨
     [(⟨"eth", belowMsg "eth" "usd" 45 (Cell.num 50), Direction.below⟩ :
        AlertEvent),
      ⟨"eth", aboveMsg "eth" "usd" 45 (Cell.num 40), Direction.above⟩].map
        AlertEvent.direction = [Direction.below] ∨
     [(⟨"eth", belowMsg "eth" "usd" 45 (Cell.num 50), Direction.below⟩ :
        AlertEvent),
      ⟨"eth", aboveMsg "eth" "usd" 45 (Cell.num 40), Direction.above⟩].map
        AlertEvent.direction = [Direction.above] ∨
     [(⟨"eth", belowMsg "eth" "usd" 45 (Cell.num 50), Direction.below⟩ :
        AlertEvent),
      ⟨"eth", aboveMsg "eth" "usd" 45 (Cell.num 40), Direction.above⟩].map
        AlertEvent.direction = [Direction.below, Direction.above]) :=
  C10_per_cycle_event_bound "eth" "usd" (Option.some 45)
    (Option.some ⟨Cell.num 50, Cell.num 40⟩) ⟨false, false⟩
    [⟨"eth", belowMsg "eth" "usd" 45 (Cell.num 50), Direction.below⟩,
     ⟨"eth", aboveMsg "eth" "usd" 45 (Cell.num 40), Direction.above⟩]
    ⟨true, true⟩ rfl

/-- Witness for the amended C4 with an absent lower cell, a NaN upper cell,
and the string entry "oops". -/
theorem C4_amended_no_bound_witness :
    evaluate "doge" "eur" (Option.some 7) (Option.some ⟨Cell.none, Cell.nan⟩)
        ⟨true, true⟩ = Except.ok ([], ⟨false, false⟩) ∧
    evaluate "doge" "eur" (Option.some 7)
        (Option.some ⟨Cell.badstr "oops", Cell.nan⟩) ⟨true, true⟩ =
      Except.error ("could not convert string to float: " ++ "oops") :=
  C4_amended_no_bound "doge" "eur" 7 ⟨true, true⟩ Cell.none Cell.nan "oops"
    (Or.inl rfl) (Or.inr rfl)

/-- Witness for C5 with a single-append run and 301 present prices. -/
theorem C5_history_window_witness :
    (([Option.some (1 : ℚ)].foldl histUpdate []).length ≤ HISTORY_LEN ∧
     [Option.some (1 : ℚ)].foldl histUpdate [] =
       ([Option.some (1 : ℚ)].filterMap id).rtake HISTORY_LEN ∧
     ((List.replicate 301 (0 : ℚ)).map Option.some).foldl histUpdate [] =
       (List.replicate 301 (0 : ℚ)).rtake HISTORY_LEN ∧
     ((List.replicate 301 (0 : ℚ)).rtake HISTORY_LEN).length = HISTORY_LEN) :=
  C5_history_window [Option.some 1] (List.replicate 301 0)
    (by simp only [HISTORY_LEN, List.length_replicate]; omega)

end CryptoTracker
